import Mathlib

/-!
Verification of `bareasgi_graphql_next.controller` (bareasgi-graphql-next).

The development shallowly embeds the controller module: strings are `List Char`,
HTTP requests and responses are explicit structures, the external GraphQL engine
(`graphql-core`: parse / graphql / subscribe) is a parameter of the controller,
and Python exceptions are `Except` values.  The URL and JSON machinery used by
the controller (`urllib.parse.quote_plus`, `unquote_plus`, `parse_qs`,
`json.dumps`, `json.loads`) is embedded executably so that concrete requests
can be evaluated.
-/

namespace BareasgiGraphql

/-! ## Characters, hex digits and decimal digits -/

/-- Hex digit characters, as produced by `urllib.parse.quote` (upper case). -/
def hexChar : Nat → Char
  | 0 => '0' | 1 => '1' | 2 => '2' | 3 => '3' | 4 => '4'
  | 5 => '5' | 6 => '6' | 7 => '7' | 8 => '8' | 9 => '9'
  | 10 => 'A' | 11 => 'B' | 12 => 'C' | 13 => 'D' | 14 => 'E'
  | _ => 'F'

/-- Value of a hex digit character (either case), `none` if not a hex digit. -/
def hexCharVal (c : Char) : Option Nat :=
  if c = '0' then some 0 else if c = '1' then some 1
  else if c = '2' then some 2 else if c = '3' then some 3
  else if c = '4' then some 4 else if c = '5' then some 5
  else if c = '6' then some 6 else if c = '7' then some 7
  else if c = '8' then some 8 else if c = '9' then some 9
  else if c = 'A' ∨ c = 'a' then some 10
  else if c = 'B' ∨ c = 'b' then some 11
  else if c = 'C' ∨ c = 'c' then some 12
  else if c = 'D' ∨ c = 'd' then some 13
  else if c = 'E' ∨ c = 'e' then some 14
  else if c = 'F' ∨ c = 'f' then some 15
  else none

theorem hexCharVal_hexChar {n : Nat} (h : n < 16) : hexCharVal (hexChar n) = some n := by
  interval_cases n <;> decide

/-- Decimal digit character for a digit `d < 10` (as in Python `str`). -/
def digCh : Nat → Char
  | 0 => '0' | 1 => '1' | 2 => '2' | 3 => '3' | 4 => '4'
  | 5 => '5' | 6 => '6' | 7 => '7' | 8 => '8' | _ => '9'

/-- Value of a decimal digit character, `none` otherwise. -/
def charDigit (c : Char) : Option Nat :=
  if c = '0' then some 0 else if c = '1' then some 1
  else if c = '2' then some 2 else if c = '3' then some 3
  else if c = '4' then some 4 else if c = '5' then some 5
  else if c = '6' then some 6 else if c = '7' then some 7
  else if c = '8' then some 8 else if c = '9' then some 9
  else none

theorem charDigit_digCh {d : Nat} (h : d < 10) : charDigit (digCh d) = some d := by
  interval_cases d <;> decide

/-! ## `urllib.parse.quote_plus` / `unquote_plus`

`quote_plus(s)` leaves ASCII alphanumerics and `_.-~` untouched, maps a space
to `+` and percent-encodes every other character (UTF-8 byte escapes; the
controller only ever quotes `json.dumps` output, which with the default
`ensure_ascii=True` is pure ASCII, so single-byte escapes are faithful here;
characters above U+00FF are passed through, which no claim exercises). -/

def isSafeChar (c : Char) : Bool :=
  c.isAlphanum || c = '_' || c = '.' || c = '-' || c = '~'

def quote_plus : List Char → List Char
  | [] => []
  | c :: rest =>
    if isSafeChar c then c :: quote_plus rest
    else if c = ' ' then '+' :: quote_plus rest
    else if c.toNat < 256 then
      '%' :: hexChar (c.toNat / 16) :: hexChar (c.toNat % 16) :: quote_plus rest
    else c :: quote_plus rest

/-- Fueled worker for `unquote_plus`; the fuel dominates the input length, so
the function is structurally recursive (and hence evaluable by the kernel). -/
def unquoteAux : Nat → List Char → List Char
  | 0, s => s
  | _ + 1, [] => []
  | fuel + 1, c :: rest =>
    if c = '+' then ' ' :: unquoteAux fuel rest
    else if c = '%' then
      match rest with
      | a :: b :: rest2 =>
        match hexCharVal a, hexCharVal b with
        | some ha, some hb => Char.ofNat (16 * ha + hb) :: unquoteAux fuel rest2
        | _, _ => '%' :: unquoteAux fuel (a :: b :: rest2)
      | [a] => '%' :: unquoteAux fuel [a]
      | [] => ['%']
    else c :: unquoteAux fuel rest

/-- Python `urllib.parse.unquote_plus`: `+` becomes a space, `%XX` with two hex digits
becomes the corresponding character, and invalid escapes pass through verbatim
(CPython keeps the `%` and continues after it). -/
def unquote_plus (s : List Char) : List Char := unquoteAux s.length s

theorem unquoteAux_irrel {f1 : Nat} : ∀ {f2 : Nat} {s : List Char},
    s.length ≤ f1 → s.length ≤ f2 → unquoteAux f1 s = unquoteAux f2 s := by
  induction f1 with
  | zero =>
    intro f2 s h1 _
    have hs : s = [] := List.eq_nil_of_length_eq_zero (Nat.le_zero.mp h1)
    subst hs
    cases f2 <;> rfl
  | succ f1 ih =>
    intro f2 s h1 h2
    cases s with
    | nil => cases f2 <;> rfl
    | cons c rest =>
      cases f2 with
      | zero => simp at h2
      | succ f2 =>
        simp only [List.length_cons, Nat.add_le_add_iff_right] at h1 h2
        show unquoteAux (f1 + 1) (c :: rest) = unquoteAux (f2 + 1) (c :: rest)
        simp only [unquoteAux]
        by_cases hp : c = '+'
        · simp [hp, ih h1 h2]
        · by_cases hpc : c = '%'
          · simp only [hp, hpc, if_true, if_false]
            cases rest with
            | nil => rfl
            | cons a tail =>
              cases tail with
              | nil =>
                have l1 : [a].length ≤ f1 := by simpa using h1
                have l2 : [a].length ≤ f2 := by simpa using h2
                simp [ih l1 l2]
              | cons b rest2 =>
                have len1 : rest2.length ≤ f1 := by simp at h1; omega
                have len2 : rest2.length ≤ f2 := by simp at h2; omega
                have lenc1 : (a :: b :: rest2).length ≤ f1 := by simpa using h1
                have lenc2 : (a :: b :: rest2).length ≤ f2 := by simpa using h2
                cases hA : hexCharVal a <;> cases hB : hexCharVal b <;>
                  simp [hA, hB, ih len1 len2, ih lenc1 lenc2]
          · simp [hp, hpc, ih h1 h2]

theorem unquote_plus_nil : unquote_plus [] = [] := rfl

theorem unquote_plus_plus (rest : List Char) :
    unquote_plus ('+' :: rest) = ' ' :: unquote_plus rest := rfl

theorem unquote_plus_other {c : Char} (h1 : c ≠ '+') (h2 : c ≠ '%') (rest : List Char) :
    unquote_plus (c :: rest) = c :: unquote_plus rest := by
  show unquoteAux (rest.length + 1) (c :: rest) = c :: unquoteAux rest.length rest
  simp [unquoteAux, h1, h2]

theorem unquote_plus_escape {a b : Char} {ha hb : Nat}
    (h1 : hexCharVal a = some ha) (h2 : hexCharVal b = some hb) (rest : List Char) :
    unquote_plus ('%' :: a :: b :: rest) =
      Char.ofNat (16 * ha + hb) :: unquote_plus rest := by
  show unquoteAux (rest.length + 3) ('%' :: a :: b :: rest) =
    Char.ofNat (16 * ha + hb) :: unquoteAux rest.length rest
  have step : unquoteAux (rest.length + 3) ('%' :: a :: b :: rest) =
      match hexCharVal a, hexCharVal b with
      | some ha, some hb => Char.ofNat (16 * ha + hb) :: unquoteAux (rest.length + 2) rest
      | _, _ => '%' :: unquoteAux (rest.length + 2) (a :: b :: rest) := rfl
  rw [step, h1, h2]
  exact congrArg _ (unquoteAux_irrel (by omega) (Nat.le_refl _))

theorem isSafeChar_ne {c : Char} (h : isSafeChar c = true) :
    c ≠ '+' ∧ c ≠ '%' ∧ c ≠ '&' ∧ c ≠ '=' := by
  refine ⟨?_, ?_, ?_, ?_⟩ <;> rintro rfl <;> simp [isSafeChar] at h

theorem hexChar_ne (n : Nat) : hexChar n ≠ '&' ∧ hexChar n ≠ '=' := by
  unfold hexChar
  split <;> exact ⟨by decide, by decide⟩

/-- Round trip: percent-decoding (with plus handling) inverts `quote_plus`. -/
theorem unquote_plus_quote_plus (s : List Char) :
    unquote_plus (quote_plus s) = s := by
  induction s with
  | nil => exact unquote_plus_nil
  | cons c rest ih =>
    by_cases hs : isSafeChar c
    · rw [quote_plus, if_pos hs]
      obtain ⟨h1, h2, -⟩ := isSafeChar_ne hs
      rw [unquote_plus_other h1 h2, ih]
    · by_cases hsp : c = ' '
      · subst hsp
        rw [quote_plus, if_neg hs, if_pos rfl, unquote_plus_plus, ih]
      · by_cases hlt : c.toNat < 256
        · rw [quote_plus, if_neg hs, if_neg hsp, if_pos hlt]
          rw [unquote_plus_escape (hexCharVal_hexChar (by omega))
              (hexCharVal_hexChar (Nat.mod_lt _ (by norm_num))), ih]
          congr 1
          have hval : 16 * (c.toNat / 16) + c.toNat % 16 = c.toNat := by
            omega
          rw [hval]
          exact Char.ofNat_toNat c
        · rw [quote_plus, if_neg hs, if_neg hsp, if_neg hlt]
          have h1 : c ≠ '+' := by rintro rfl; simp at hlt
          have h2 : c ≠ '%' := by rintro rfl; simp at hlt
          rw [unquote_plus_other h1 h2, ih]

/-- If a string contains neither `+` nor `%`, `unquote_plus` leaves it alone. -/
theorem unquote_plus_of_no_special {s : List Char}
    (h : ∀ c ∈ s, c ≠ '+' ∧ c ≠ '%') : unquote_plus s = s := by
  induction s with
  | nil => exact unquote_plus_nil
  | cons c rest ih =>
    obtain ⟨h1, h2⟩ := h c (by simp)
    rw [unquote_plus_other h1 h2, ih (fun c hc => h c (by simp [hc]))]

/-- Every character of `quote_plus s` is a safe character, `+`, `%`, or a hex
digit (or an untouched character above U+00FF); in particular never `&` or `=`. -/
theorem quote_plus_no_amp_eq (s : List Char) :
    ∀ c ∈ quote_plus s, c ≠ '&' ∧ c ≠ '=' := by
  induction s with
  | nil => simp [quote_plus]
  | cons c rest ih =>
    intro d hd
    by_cases hs : isSafeChar c
    · rw [quote_plus, if_pos hs] at hd
      rcases List.mem_cons.mp hd with rfl | hd
      · obtain ⟨-, -, h3, h4⟩ := isSafeChar_ne hs
        exact ⟨h3, h4⟩
      · exact ih d hd
    · by_cases hsp : c = ' '
      · subst hsp
        rw [quote_plus, if_neg hs, if_pos rfl] at hd
        rcases List.mem_cons.mp hd with rfl | hd
        · exact ⟨by decide, by decide⟩
        · exact ih d hd
      · by_cases hlt : c.toNat < 256
        · rw [quote_plus, if_neg hs, if_neg hsp, if_pos hlt] at hd
          rcases List.mem_cons.mp hd with rfl | hd
          · exact ⟨by decide, by decide⟩
          rcases List.mem_cons.mp hd with rfl | hd
          · exact hexChar_ne _
          rcases List.mem_cons.mp hd with rfl | hd
          · exact hexChar_ne _
          · exact ih d hd
        · rw [quote_plus, if_neg hs, if_neg hsp, if_neg hlt] at hd
          rcases List.mem_cons.mp hd with rfl | hd
          · constructor <;> rintro rfl <;> exact hlt (by decide)
          · exact ih d hd

/-! ## `urllib.parse.parse_qs`

CPython's `parse_qsl` splits the query string on `&`, skips pairs without an
`=`, and applies plus-replacement and percent-decoding (i.e. `unquote_plus`)
to both the name and the value.  `parse_qs` groups values by name; the
controller only ever reads the first value of a name, so the embedding keeps
the ordered pair list and `firstValue` models `parse_qs(qs)[name][0]`. -/

/-- Split a list on `&` separators (like `qs.split('&')`). -/
def splitOnAmp : List Char → List (List Char)
  | [] => [[]]
  | c :: rest =>
    if c = '&' then [] :: splitOnAmp rest
    else
      match splitOnAmp rest with
      | [] => [[c]]
      | p :: ps => (c :: p) :: ps

/-- Split a pair at its first `=`, `none` if there is no `=`. -/
def splitEq : List Char → Option (List Char × List Char)
  | [] => none
  | c :: rest =>
    if c = '=' then some ([], rest)
    else (splitEq rest).map (fun nv => (c :: nv.1, nv.2))

def parse_qs (s : List Char) : List (List Char × List Char) :=
  (splitOnAmp s).filterMap
    (fun pair => (splitEq pair).map (fun nv => (unquote_plus nv.1, unquote_plus nv.2)))

/-- Models `parse_qs(qs)[name][0]`: the first value listed under `name`
(raises `KeyError` when absent, hence `Option`). -/
def firstValue (name : List Char) (ps : List (List Char × List Char)) :
    Option (List Char) :=
  (ps.find? (fun p => p.1 = name)).map (fun p => p.2)

theorem splitOnAmp_no_amp {s : List Char} (h : ∀ c ∈ s, c ≠ '&') :
    splitOnAmp s = [s] := by
  induction s with
  | nil => rfl
  | cons c rest ih =>
    rw [splitOnAmp, if_neg (h c (by simp)), ih (fun c hc => h c (by simp [hc]))]

theorem splitEq_append (k v : List Char) (h : ∀ c ∈ k, c ≠ '=') :
    splitEq (k ++ '=' :: v) = some (k, v) := by
  induction k with
  | nil => simp [splitEq]
  | cons c rest ih =>
    rw [List.cons_append, splitEq, if_neg (h c (by simp)),
      ih (fun c hc => h c (by simp [hc]))]
    rfl

/-- For a single-pair query string `name=value` whose characters contain no
separators, `parse_qs` yields exactly that pair, `unquote_plus`-decoded. -/
theorem parse_qs_single (k v : List Char)
    (hk : ∀ c ∈ k, c ≠ '&' ∧ c ≠ '=')
    (hv : ∀ c ∈ v, c ≠ '&') :
    parse_qs (k ++ '=' :: v) = [(unquote_plus k, unquote_plus v)] := by
  have hamp : ∀ c ∈ k ++ '=' :: v, c ≠ '&' := by
    intro c hc
    rcases List.mem_append.mp hc with hc | hc
    · exact (hk c hc).1
    · rcases List.mem_cons.mp hc with rfl | hc
      · decide
      · exact hv c hc
  rw [parse_qs, splitOnAmp_no_amp hamp]
  simp [splitEq_append k v (fun c hc => (hk c hc).2)]

/-! ## JSON values, `json.dumps` and `json.loads`

The controller serializes the decoded operation with `json.dumps(body)`
(default separators `', '` and `': '`, strings quoted with backslash escapes)
and re-reads it with `json.loads`.  The embedding implements both executably.
String escaping covers the characters the controller's data can contain
(`"`"`, `\`, newline, tab, carriage return); other control characters and the
`ensure_ascii` escaping of non-ASCII characters are passed through verbatim,
which is immaterial to every claim and keeps the encoder/decoder pair exact. -/


mutual

inductive Json where
  | null
  | bool (b : Bool)
  | num (n : Int)
  | str (s : List Char)
  | arr (items : JsonArr)
  | obj (members : JsonObj)
  deriving DecidableEq

/-- A JSON array, kept as a dedicated inductive so that every function on
JSON values is structurally recursive. -/
inductive JsonArr where
  | nil
  | cons (hd : Json) (tl : JsonArr)
  deriving DecidableEq

/-- A JSON object: an ordered list of key/value members (Python `dict`
insertion order). -/
inductive JsonObj where
  | nil
  | cons (key : List Char) (val : Json) (tl : JsonObj)
  deriving DecidableEq

end

def JsonArr.ofList : List Json → JsonArr
  | [] => .nil
  | x :: xs => .cons x (JsonArr.ofList xs)

def JsonObj.ofList : List (List Char × Json) → JsonObj
  | [] => .nil
  | (k, v) :: ms => .cons k v (JsonObj.ofList ms)

/-- Fueled worker for `natDigits` (fuel dominates the number). -/
def natDigitsAux : Nat → Nat → List Nat
  | 0, _ => []
  | fuel + 1, n => if n < 10 then [n] else natDigitsAux fuel (n / 10) ++ [n % 10]

/-- Decimal digits of a natural number, most significant first. -/
def natDigits (n : Nat) : List Nat := natDigitsAux (n + 1) n

theorem natDigitsAux_irrel (f1 f2 n : Nat) (h1 : n < f1) (h2 : n < f2) :
    natDigitsAux f1 n = natDigitsAux f2 n := by
  induction f1 generalizing f2 n with
  | zero => omega
  | succ f1 ih =>
    cases f2 with
    | zero => omega
    | succ f2 =>
      simp only [natDigitsAux]
      by_cases hn : n < 10
      · simp [hn]
      · have hd : n / 10 < n := Nat.div_lt_self (by omega) (by omega)
        rw [if_neg hn, if_neg hn, ih f2 (n / 10) (by omega) (by omega)]

theorem natDigits_eq (n : Nat) :
    natDigits n = if n < 10 then [n] else natDigits (n / 10) ++ [n % 10] := by
  show natDigitsAux (n + 1) n = _
  simp only [natDigitsAux]
  by_cases hn : n < 10
  · simp [hn]
  · have hd : n / 10 < n := Nat.div_lt_self (by omega) (by omega)
    rw [if_neg hn, if_neg hn,
      natDigitsAux_irrel n (n / 10 + 1) (n / 10) (by omega) (Nat.lt_succ_self _)]
    rfl

/-- Decimal rendering of a natural number, as by Python `str`/`json.dumps`. -/
def natDump (n : Nat) : List Char := (natDigits n).map digCh

/-- Decimal rendering of an integer. -/
def intDump (i : Int) : List Char :=
  if i < 0 then '-' :: natDump i.natAbs else natDump i.toNat

/-- JSON string escaping for one character. -/
def escChar (c : Char) : List Char :=
  if c = '"' then ['\\', '"']
  else if c = '\\' then ['\\', '\\']
  else if c = '\n' then ['\\', 'n']
  else if c = '\t' then ['\\', 't']
  else if c = '\r' then ['\\', 'r']
  else [c]

def escString (s : List Char) : List Char := (s.map escChar).flatten

mutual

/-- Python `json.dumps` with the default separators `', '` and `': '`. -/
def Json.dumps : Json → List Char
  | .null => ("null".toList)
  | .bool true => ("true".toList)
  | .bool false => ("false".toList)
  | .num i => intDump i
  | .str s => '"' :: escString s ++ ['"']
  | .arr items => '[' :: Json.dumpsElems items ++ [']']
  | .obj members => '{' :: Json.dumpsMembers members ++ ['}']

def Json.dumpsElems : JsonArr → List Char
  | .nil => []
  | .cons x rest => Json.dumps x ++ Json.dumpsElemsTail rest

def Json.dumpsElemsTail : JsonArr → List Char
  | .nil => []
  | .cons x rest => ',' :: ' ' :: Json.dumps x ++ Json.dumpsElemsTail rest

def Json.dumpsMembers : JsonObj → List Char
  | .nil => []
  | .cons k v rest =>
    '"' :: escString k ++ '"' :: ':' :: ' ' :: Json.dumps v ++ Json.dumpsMembersTail rest

def Json.dumpsMembersTail : JsonObj → List Char
  | .nil => []
  | .cons k v rest =>
    ',' :: ' ' :: '"' :: escString k ++ '"' :: ':' :: ' ' :: Json.dumps v ++
      Json.dumpsMembersTail rest

end

/-- The serialized form of one object member, `"key": value`. -/
def Json.dumpsMember (k : List Char) (v : Json) : List Char :=
  '"' :: escString k ++ '"' :: ':' :: ' ' :: Json.dumps v

theorem Json.dumpsMembers_cons (k : List Char) (v : Json) (rest : JsonObj) :
    Json.dumpsMembers (.cons k v rest) = Json.dumpsMember k v ++ Json.dumpsMembersTail rest := by
  simp [Json.dumpsMembers, Json.dumpsMember]

theorem Json.dumpsMembersTail_cons (k : List Char) (v : Json) (rest : JsonObj) :
    Json.dumpsMembersTail (.cons k v rest) =
      ',' :: ' ' :: Json.dumpsMember k v ++ Json.dumpsMembersTail rest := by
  simp [Json.dumpsMembersTail, Json.dumpsMember]


/-! ## `json.loads`: the decoder -/

/-- Skip leading spaces (the only whitespace `json.dumps` output contains). -/
def skipSp : List Char → List Char
  | [] => []
  | c :: r => if c = ' ' then skipSp r else c :: r

theorem skipSp_cons_of_ne {c : Char} (h : c ≠ ' ') (r : List Char) :
    skipSp (c :: r) = c :: r := by
  simp [skipSp, h]

/-- JSON string escape codes recognized by the decoder. -/
def unescCh (c : Char) : Option Char :=
  if c = '"' then some '"'
  else if c = '\\' then some '\\'
  else if c = '/' then some '/'
  else if c = 'n' then some '\n'
  else if c = 't' then some '\t'
  else if c = 'r' then some '\r'
  else if c = 'b' then some (Char.ofNat 8)
  else if c = 'f' then some (Char.ofNat 12)
  else none

/-- Fueled string-body decoder: consumes characters (handling backslash
escapes) up to the closing quote and returns the decoded string and the rest
of the input. -/
def parseStrAux : Nat → List Char → Option (List Char × List Char)
  | 0, _ => none
  | _ + 1, [] => none
  | fuel + 1, c :: r =>
    if c = '"' then some ([], r)
    else if c = '\\' then
      match r with
      | [] => none
      | e :: r2 =>
        match unescCh e with
        | some ec =>
          match parseStrAux fuel r2 with
          | some p => some (ec :: p.1, p.2)
          | none => none
        | none => none
    else
      match parseStrAux fuel r with
      | some p => some (c :: p.1, p.2)
      | none => none

def parseStr (s : List Char) : Option (List Char × List Char) :=
  parseStrAux s.length s

theorem parseStrAux_esc (s : List Char) (rest : List Char) : ∀ (fuel : Nat),
    (escString s ++ '"' :: rest).length ≤ fuel →
    parseStrAux fuel (escString s ++ '"' :: rest) = some (s, rest) := by
  induction s with
  | nil =>
    intro fuel hf
    simp [escString] at hf ⊢
    cases fuel with
    | zero => omega
    | succ fuel => simp [parseStrAux]
  | cons c s ih =>
    intro fuel hf
    have hesc : escString (c :: s) = escChar c ++ escString s := by
      simp [escString]
    rw [hesc] at hf ⊢
    by_cases h1 : c = '"'
    · subst h1
      cases fuel with
      | zero => simp [escChar] at hf
      | succ fuel =>
        cases fuel with
        | zero => simp [escChar] at hf
        | succ fuel =>
          have : (escString s ++ '"' :: rest).length ≤ fuel + 1 := by
            simp [escChar] at hf ⊢; omega
          simp [escChar, parseStrAux, unescCh, ih _ this]
    · by_cases h2 : c = '\\'
      · subst h2
        cases fuel with
        | zero => simp [escChar] at hf
        | succ fuel =>
          cases fuel with
          | zero => simp [escChar] at hf
          | succ fuel =>
            have : (escString s ++ '"' :: rest).length ≤ fuel + 1 := by
              simp [escChar] at hf ⊢; omega
            simp [escChar, parseStrAux, unescCh, ih _ this]
      · by_cases h3 : c = '\n'
        · subst h3
          cases fuel with
          | zero => simp [escChar] at hf
          | succ fuel =>
            cases fuel with
            | zero => simp [escChar] at hf
            | succ fuel =>
              have : (escString s ++ '"' :: rest).length ≤ fuel + 1 := by
                simp [escChar] at hf ⊢; omega
              simp [escChar, parseStrAux, unescCh, ih _ this]
        · by_cases h4 : c = '\t'
          · subst h4
            cases fuel with
            | zero => simp [escChar] at hf
            | succ fuel =>
              cases fuel with
              | zero => simp [escChar] at hf
              | succ fuel =>
                have : (escString s ++ '"' :: rest).length ≤ fuel + 1 := by
                  simp [escChar] at hf ⊢; omega
                simp [escChar, parseStrAux, unescCh, ih _ this]
          · by_cases h5 : c = '\r'
            · subst h5
              cases fuel with
              | zero => simp [escChar] at hf
              | succ fuel =>
                cases fuel with
                | zero => simp [escChar] at hf
                | succ fuel =>
                  have : (escString s ++ '"' :: rest).length ≤ fuel + 1 := by
                    simp [escChar] at hf ⊢; omega
                  simp [escChar, parseStrAux, unescCh, ih _ this]
            · have hc : escChar c = [c] := by
                simp [escChar, h1, h2, h3, h4, h5]
              rw [hc] at hf ⊢
              cases fuel with
              | zero => simp at hf
              | succ fuel =>
                have : (escString s ++ '"' :: rest).length ≤ fuel := by
                  simp at hf ⊢; omega
                simp [parseStrAux, h1, h2, ih _ this]

/-- The decoder `parseStr` recovers exactly what `escString` encoded. -/
theorem parseStr_esc (s rest : List Char) :
    parseStr (escString s ++ '"' :: rest) = some (s, rest) :=
  parseStrAux_esc s rest _ (Nat.le_refl _)

/-- Greedily take decimal digit characters from the front of the input. -/
def takeDigits : List Char → List Nat × List Char
  | [] => ([], [])
  | c :: r =>
    match charDigit c with
    | some d =>
      let p := takeDigits r
      (d :: p.1, p.2)
    | none => ([], c :: r)

/-- Value of a big-endian digit list. -/
def digitsVal (ds : List Nat) : Nat := ds.foldl (fun acc d => acc * 10 + d) 0

/-- Parse a non-empty run of digits as a natural number. -/
def parseNatNum (s : List Char) : Option (Nat × List Char) :=
  match takeDigits s with
  | (ds, rest) => if ds.isEmpty then none else some (digitsVal ds, rest)

/-- Holds (as `true`) when the input does not begin with a decimal digit (so a greedy
number parse just before it cannot run into it). -/
def restOk : List Char → Bool
  | [] => true
  | c :: _ => (charDigit c).isNone

theorem takeDigits_mapped (ds : List Nat) (rest : List Char)
    (hds : ∀ d ∈ ds, d < 10) (hrest : restOk rest = true) :
    takeDigits ((ds.map digCh) ++ rest) = (ds, rest) := by
  induction ds with
  | nil =>
    cases rest with
    | nil => rfl
    | cons c r =>
      simp only [restOk, Option.isNone_iff_eq_none] at hrest
      simp [takeDigits, hrest]
  | cons d ds ih =>
    have hd : d < 10 := hds d (by simp)
    simp only [List.map_cons, List.cons_append, takeDigits, charDigit_digCh hd,
      List.append_eq]
    rw [ih (fun d hd => hds d (by simp [hd]))]

theorem digitsVal_append_single (ds : List Nat) (d : Nat) :
    digitsVal (ds ++ [d]) = 10 * digitsVal ds + d := by
  simp [digitsVal, List.foldl_append]
  omega

theorem natDigits_lt_10 (n : Nat) : ∀ d ∈ natDigits n, d < 10 := by
  induction n using Nat.strong_induction_on with
  | _ n ih =>
    rw [natDigits_eq]
    by_cases hn : n < 10
    · simp [hn]
    · have hd : n / 10 < n := Nat.div_lt_self (by omega) (by omega)
      simp only [if_neg hn]
      intro d hd2
      rcases List.mem_append.mp hd2 with h | h
      · exact ih _ hd d h
      · simp at h
        omega

theorem digitsVal_natDigits (n : Nat) : digitsVal (natDigits n) = n := by
  induction n using Nat.strong_induction_on with
  | _ n ih =>
    rw [natDigits_eq]
    by_cases hn : n < 10
    · simp [hn, digitsVal]
    · have hd : n / 10 < n := Nat.div_lt_self (by omega) (by omega)
      rw [if_neg hn, digitsVal_append_single, ih _ hd]
      omega

theorem natDigits_ne_nil (n : Nat) : natDigits n ≠ [] := by
  rw [natDigits_eq]
  by_cases hn : n < 10 <;> simp [hn]

/-- Parsing the decimal rendering of `n` recovers `n` exactly. -/
theorem parseNatNum_natDump (n : Nat) (rest : List Char) (hrest : restOk rest = true) :
    parseNatNum (natDump n ++ rest) = some (n, rest) := by
  rw [parseNatNum, natDump, takeDigits_mapped _ _ (natDigits_lt_10 n) hrest]
  simp [natDigits_ne_nil n, digitsVal_natDigits]

/-! The main JSON value parser.  All four functions recurse structurally on a
shared fuel (any fuel above the input length is sufficient), so `json_loads`
is evaluable by the kernel. -/

mutual

def parseJson : Nat → List Char → Option (Json × List Char)
  | 0, _ => none
  | fuel + 1, s =>
    match skipSp s with
    | [] => none
    | c :: r =>
      if c = 'n' then
        if r.take 3 = ['u', 'l', 'l'] then some (.null, r.drop 3) else none
      else if c = 't' then
        if r.take 3 = ['r', 'u', 'e'] then some (.bool true, r.drop 3) else none
      else if c = 'f' then
        if r.take 4 = ['a', 'l', 's', 'e'] then some (.bool false, r.drop 4) else none
      else if c = '"' then
        match parseStr r with
        | some p => some (.str p.1, p.2)
        | none => none
      else if c = '[' then
        match r with
        | [] => none
        | c2 :: r2 =>
          if c2 = ']' then some (.arr .nil, r2)
          else
            match parseJson fuel (c2 :: r2) with
            | some (x, r3) =>
              match parseArrTail fuel r3 with
              | some (xs, r4) => some (.arr (.cons x xs), r4)
              | none => none
            | none => none
      else if c = '{' then
        match r with
        | [] => none
        | c2 :: r2 =>
          if c2 = '}' then some (.obj .nil, r2)
          else
            match parseMember fuel (c2 :: r2) with
            | some (k, v, r3) =>
              match parseObjTail fuel r3 with
              | some (ms, r4) => some (.obj (.cons k v ms), r4)
              | none => none
            | none => none
      else if c = '-' then
        match parseNatNum r with
        | some (n, rest) => some (.num (-(n : Int)), rest)
        | none => none
      else
        match charDigit c with
        | some _ =>
          match parseNatNum (c :: r) with
          | some (n, rest) => some (.num ((n : Int)), rest)
          | none => none
        | none => none

def parseArrTail : Nat → List Char → Option (JsonArr × List Char)
  | 0, _ => none
  | _ + 1, [] => none
  | fuel + 1, c :: r =>
    if c = ']' then some (.nil, r)
    else if c = ',' then
      match parseJson fuel r with
      | some (x, r2) =>
        match parseArrTail fuel r2 with
        | some (xs, r3) => some (.cons x xs, r3)
        | none => none
      | none => none
    else none

def parseObjTail : Nat → List Char → Option (JsonObj × List Char)
  | 0, _ => none
  | _ + 1, [] => none
  | fuel + 1, c :: r =>
    if c = '}' then some (.nil, r)
    else if c = ',' then
      match parseMember fuel r with
      | some (k, v, r2) =>
        match parseObjTail fuel r2 with
        | some (ms, r3) => some (.cons k v ms, r3)
        | none => none
      | none => none
    else none

def parseMember : Nat → List Char → Option (List Char × Json × List Char)
  | 0, _ => none
  | fuel + 1, s =>
    match skipSp s with
    | [] => none
    | c :: r =>
      if c = '"' then
        match parseStr r with
        | some (k, r2) =>
          match r2 with
          | [] => none
          | c2 :: r3 =>
            if c2 = ':' then
              match parseJson fuel r3 with
              | some (v, r4) => some (k, v, r4)
              | none => none
            else none
        | none => none
      else none

end

/-- Python `json.loads`: parse a complete JSON document; fails (Python raises
`json.JSONDecodeError`) when the input is not a single JSON value followed
only by whitespace. -/
def json_loads (s : List Char) : Option Json :=
  match parseJson (s.length + 1) s with
  | some (j, rest) => if skipSp rest = [] then some j else none
  | none => none

/-! Sizes of JSON values, used to discharge the parser fuel. -/

mutual

def Json.size : Json → Nat
  | .null => 1
  | .bool _ => 1
  | .num _ => 1
  | .str _ => 1
  | .arr items => 1 + JsonArr.size items
  | .obj members => 1 + JsonObj.size members

def JsonArr.size : JsonArr → Nat
  | .nil => 0
  | .cons x rest => Json.size x + JsonArr.size rest

def JsonObj.size : JsonObj → Nat
  | .nil => 0
  | .cons _ v rest => 1 + Json.size v + JsonObj.size rest

end

theorem Json.size_pos (j : Json) : 1 ≤ Json.size j := by
  cases j <;> simp [Json.size]

theorem charDigit_digCh_isSome (d : Nat) : (charDigit (digCh d)).isSome := by
  unfold digCh
  split <;> decide

theorem natDump_head (n : Nat) : ∃ d r, natDump n = digCh d :: r := by
  obtain ⟨d, ds, h⟩ := List.exists_cons_of_ne_nil (natDigits_ne_nil n)
  exact ⟨d, ds.map digCh, by simp [natDump, h]⟩

/-- Every serialized JSON value starts with one of the value-starter
characters. -/
theorem Json.dumps_head (j : Json) : ∃ c r, Json.dumps j = c :: r ∧
    (c = 'n' ∨ c = 't' ∨ c = 'f' ∨ c = '"' ∨ c = '[' ∨ c = '{' ∨ c = '-' ∨
      (charDigit c).isSome) := by
  cases j with
  | null => exact ⟨'n', _, rfl, by tauto⟩
  | bool b =>
    cases b with
    | true => exact ⟨'t', _, rfl, by tauto⟩
    | false => exact ⟨'f', _, rfl, by tauto⟩
  | num i =>
    by_cases hi : i < 0
    · exact ⟨'-', natDump i.natAbs, by simp [Json.dumps, intDump, hi], by tauto⟩
    · obtain ⟨d, r, h⟩ := natDump_head i.toNat
      refine ⟨digCh d, r, by simp [Json.dumps, intDump, hi, h], ?_⟩
      exact Or.inr (Or.inr (Or.inr (Or.inr (Or.inr (Or.inr (Or.inr
        (charDigit_digCh_isSome d)))))))
  | str s => exact ⟨'"', _, rfl, by tauto⟩
  | arr items => exact ⟨'[', _, rfl, by tauto⟩
  | obj members => exact ⟨'{', _, rfl, by tauto⟩

theorem starter_ne {c : Char}
    (h : c = 'n' ∨ c = 't' ∨ c = 'f' ∨ c = '"' ∨ c = '[' ∨ c = '{' ∨ c = '-' ∨
      (charDigit c).isSome) :
    c ≠ ' ' ∧ c ≠ ']' ∧ c ≠ '}' ∧ c ≠ ',' ∧ c ≠ ':' := by
  rcases h with rfl | rfl | rfl | rfl | rfl | rfl | rfl | h
  · exact ⟨by decide, by decide, by decide, by decide, by decide⟩
  · exact ⟨by decide, by decide, by decide, by decide, by decide⟩
  · exact ⟨by decide, by decide, by decide, by decide, by decide⟩
  · exact ⟨by decide, by decide, by decide, by decide, by decide⟩
  · exact ⟨by decide, by decide, by decide, by decide, by decide⟩
  · exact ⟨by decide, by decide, by decide, by decide, by decide⟩
  · exact ⟨by decide, by decide, by decide, by decide, by decide⟩
  · refine ⟨?_, ?_, ?_, ?_, ?_⟩ <;> rintro rfl <;> simp [charDigit] at h

theorem restOk_elemsTail (xs : JsonArr) (rest : List Char) :
    restOk (Json.dumpsElemsTail xs ++ ']' :: rest) = true := by
  cases xs <;> simp [Json.dumpsElemsTail, restOk, charDigit]

theorem restOk_membersTail (ms : JsonObj) (rest : List Char) :
    restOk (Json.dumpsMembersTail ms ++ '}' :: rest) = true := by
  cases ms <;> simp [Json.dumpsMembersTail, restOk, charDigit]

theorem natDump_length_pos (n : Nat) : 1 ≤ (natDump n).length := by
  obtain ⟨d, r, h⟩ := natDump_head n
  simp [h]

mutual

theorem Json.size_le_dumps : ∀ j : Json, Json.size j ≤ (Json.dumps j).length
  | .null => by simp [Json.size, Json.dumps]
  | .bool true => by simp [Json.size, Json.dumps]
  | .bool false => by simp [Json.size, Json.dumps]
  | .num i => by
    have h : 1 ≤ (intDump i).length := by
      rw [intDump]
      by_cases hi : i < 0
      · simp [hi]
      · simpa [hi] using natDump_length_pos i.toNat
    simpa [Json.size, Json.dumps] using h
  | .str s => by simp [Json.size, Json.dumps]
  | .arr items => by
    have h := JsonArr.size_le_dumpsElems items
    simp only [Json.size, Json.dumps, List.length_cons, List.length_append]
    omega
  | .obj members => by
    have h := JsonObj.size_le_dumpsMembers members
    simp only [Json.size, Json.dumps, List.length_cons, List.length_append]
    omega

theorem JsonArr.size_le_dumpsElems : ∀ xs : JsonArr,
    JsonArr.size xs ≤ (Json.dumpsElems xs).length
  | .nil => by simp [JsonArr.size, Json.dumpsElems]
  | .cons x rest => by
    have h1 := Json.size_le_dumps x
    have h2 := JsonArr.size_le_dumpsElemsTail rest
    simp only [JsonArr.size, Json.dumpsElems, List.length_append]
    omega

theorem JsonArr.size_le_dumpsElemsTail : ∀ xs : JsonArr,
    JsonArr.size xs ≤ (Json.dumpsElemsTail xs).length
  | .nil => by simp [JsonArr.size, Json.dumpsElemsTail]
  | .cons x rest => by
    have h1 := Json.size_le_dumps x
    have h2 := JsonArr.size_le_dumpsElemsTail rest
    simp only [JsonArr.size, Json.dumpsElemsTail, List.length_cons, List.length_append]
    omega

theorem JsonObj.size_le_dumpsMembers : ∀ ms : JsonObj,
    JsonObj.size ms ≤ (Json.dumpsMembers ms).length
  | .nil => by simp [JsonObj.size, Json.dumpsMembers]
  | .cons k v rest => by
    have h1 := Json.size_le_dumps v
    have h2 := JsonObj.size_le_dumpsMembersTail rest
    simp only [JsonObj.size, Json.dumpsMembers, List.length_cons, List.length_append]
    omega

theorem JsonObj.size_le_dumpsMembersTail : ∀ ms : JsonObj,
    JsonObj.size ms ≤ (Json.dumpsMembersTail ms).length
  | .nil => by simp [JsonObj.size, Json.dumpsMembersTail]
  | .cons k v rest => by
    have h1 := Json.size_le_dumps v
    have h2 := JsonObj.size_le_dumpsMembersTail rest
    simp only [JsonObj.size, Json.dumpsMembersTail, List.length_cons, List.length_append]
    omega

end

def parseJsonTop (fuel : Nat) : List Char → Option (Json × List Char)
  | [] => none
  | c :: r =>
    if c = 'n' then
      if r.take 3 = ['u', 'l', 'l'] then some (.null, r.drop 3) else none
    else if c = 't' then
      if r.take 3 = ['r', 'u', 'e'] then some (.bool true, r.drop 3) else none
    else if c = 'f' then
      if r.take 4 = ['a', 'l', 's', 'e'] then some (.bool false, r.drop 4) else none
    else if c = '"' then
      match parseStr r with
      | some p => some (.str p.1, p.2)
      | none => none
    else if c = '[' then
      match r with
      | [] => none
      | c2 :: r2 =>
        if c2 = ']' then some (.arr .nil, r2)
        else
          match parseJson fuel (c2 :: r2) with
          | some (x, r3) =>
            match parseArrTail fuel r3 with
            | some (xs, r4) => some (.arr (.cons x xs), r4)
            | none => none
          | none => none
    else if c = '{' then
      match r with
      | [] => none
      | c2 :: r2 =>
        if c2 = '}' then some (.obj .nil, r2)
        else
          match parseMember fuel (c2 :: r2) with
          | some (k, v, r3) =>
            match parseObjTail fuel r3 with
            | some (ms, r4) => some (.obj (.cons k v ms), r4)
            | none => none
          | none => none
    else if c = '-' then
      match parseNatNum r with
      | some (n, rest) => some (.num (-(n : Int)), rest)
      | none => none
    else
      match charDigit c with
      | some _ =>
        match parseNatNum (c :: r) with
        | some (n, rest) => some (.num ((n : Int)), rest)
        | none => none
      | none => none

theorem parseJson_succ (fuel : Nat) (s : List Char) :
    parseJson (fuel + 1) s = parseJsonTop fuel (skipSp s) := rfl

def parseMemberTop (fuel : Nat) : List Char → Option (List Char × Json × List Char)
  | [] => none
  | c :: r =>
    if c = '"' then
      match parseStr r with
      | some (k, r2) =>
        match r2 with
        | [] => none
        | c2 :: r3 =>
          if c2 = ':' then
            match parseJson fuel r3 with
            | some (v, r4) => some (k, v, r4)
            | none => none
          else none
      | none => none
    else none

theorem parseMember_succ (fuel : Nat) (s : List Char) :
    parseMember (fuel + 1) s = parseMemberTop fuel (skipSp s) := rfl

theorem parseArrTail_close (fuel : Nat) (r : List Char) :
    parseArrTail (fuel + 1) (']' :: r) = some (.nil, r) := rfl

theorem parseArrTail_comma (fuel : Nat) (r : List Char) :
    parseArrTail (fuel + 1) (',' :: r) =
      (match parseJson fuel r with
       | some (x, r2) =>
         (match parseArrTail fuel r2 with
          | some (xs, r3) => some (JsonArr.cons x xs, r3)
          | none => none)
       | none => none) := rfl

theorem parseObjTail_close (fuel : Nat) (r : List Char) :
    parseObjTail (fuel + 1) ('}' :: r) = some (.nil, r) := rfl

theorem parseObjTail_comma (fuel : Nat) (r : List Char) :
    parseObjTail (fuel + 1) (',' :: r) =
      (match parseMember fuel r with
       | some (k, v, r2) =>
         (match parseObjTail fuel r2 with
          | some (ms, r3) => some (JsonObj.cons k v ms, r3)
          | none => none)
       | none => none) := rfl

theorem skipSp_dumps_append (j : Json) (rest : List Char) :
    skipSp (Json.dumps j ++ rest) = Json.dumps j ++ rest := by
  obtain ⟨c, r, h, hstart⟩ := Json.dumps_head j
  rw [h, List.cons_append, skipSp_cons_of_ne (starter_ne hstart).1]

set_option maxHeartbeats 1000000 in
theorem parse_roundtrip : ∀ fuel : Nat,
    (∀ (j : Json) (s rest : List Char), Json.size j ≤ fuel → restOk rest = true →
      skipSp s = Json.dumps j ++ rest → parseJson fuel s = some (j, rest)) ∧
    (∀ (xs : JsonArr) (rest : List Char), JsonArr.size xs + 1 ≤ fuel → restOk rest = true →
      parseArrTail fuel (Json.dumpsElemsTail xs ++ ']' :: rest) = some (xs, rest)) ∧
    (∀ (ms : JsonObj) (rest : List Char), JsonObj.size ms + 1 ≤ fuel → restOk rest = true →
      parseObjTail fuel (Json.dumpsMembersTail ms ++ '}' :: rest) = some (ms, rest)) ∧
    (∀ (k : List Char) (v : Json) (s rest : List Char), Json.size v + 1 ≤ fuel →
      restOk rest = true → skipSp s = Json.dumpsMember k v ++ rest →
      parseMember fuel s = some (k, v, rest)) := by
  intro fuel
  induction fuel with
  | zero =>
    refine ⟨?_, ?_, ?_, ?_⟩
    · intro j s rest h _ _
      have := Json.size_pos j
      omega
    · intro xs rest h _
      omega
    · intro ms rest h _
      omega
    · intro k v s rest h _ _
      omega
  | succ fuel ih =>
    obtain ⟨ihJ, ihA, ihO, ihM⟩ := ih
    refine ⟨?_, ?_, ?_, ?_⟩
    · -- parseJson
      intro j s rest hsz hrest hskip
      rw [parseJson_succ, hskip]
      cases j with
      | null => simp [Json.dumps, parseJsonTop]
      | bool b => cases b <;> simp [Json.dumps, parseJsonTop]
      | num i =>
        by_cases hi : i < 0
        · have habs : -((i.natAbs : Nat) : Int) = i := by omega
          simp only [Json.dumps, intDump, if_pos hi, List.cons_append]
          simp [parseJsonTop, parseNatNum_natDump _ _ hrest, habs]
          rw [abs_of_nonpos (by omega : i ≤ 0)]
          ring
        · obtain ⟨d, r', hnd⟩ := natDump_head i.toNat
          have hne : digCh d ≠ 'n' ∧ digCh d ≠ 't' ∧ digCh d ≠ 'f' ∧ digCh d ≠ '"' ∧
              digCh d ≠ '[' ∧ digCh d ≠ '{' ∧ digCh d ≠ '-' := by
            unfold digCh
            split <;> exact ⟨by decide, by decide, by decide, by decide, by decide,
              by decide, by decide⟩
          obtain ⟨dv, hdv⟩ := Option.isSome_iff_exists.mp (charDigit_digCh_isSome d)
          simp only [Json.dumps, intDump, if_neg hi, hnd, List.cons_append]
          simp only [parseJsonTop, if_neg hne.1, if_neg hne.2.1, if_neg hne.2.2.1,
            if_neg hne.2.2.2.1, if_neg hne.2.2.2.2.1, if_neg hne.2.2.2.2.2.1,
            if_neg hne.2.2.2.2.2.2, hdv]
          rw [show digCh d :: (r' ++ rest) = natDump i.toNat ++ rest by simp [hnd],
            parseNatNum_natDump _ _ hrest]
          simp
          omega
      | str s' =>
        simp only [Json.dumps, List.cons_append, List.append_assoc,
          List.singleton_append]
        simp [parseJsonTop, parseStr_esc]
      | arr items =>
        cases items with
        | nil =>
          simp only [Json.dumps, Json.dumpsElems, List.nil_append, List.cons_append,
            List.singleton_append]
          simp [parseJsonTop]
        | cons x xs =>
          obtain ⟨c2, r2, hdx, hstart⟩ := Json.dumps_head x
          obtain ⟨hsp, hrb, hcb, hcm, hcl⟩ := starter_ne hstart
          have hposx := Json.size_pos x
          simp only [Json.size, JsonArr.size] at hsz
          have hx1 : Json.size x ≤ fuel := by omega
          have hxs : JsonArr.size xs + 1 ≤ fuel := by omega
          have hrest2 : restOk (Json.dumpsElemsTail xs ++ ']' :: rest) = true :=
            restOk_elemsTail xs rest
          have harr : Json.dumps (Json.arr (.cons x xs)) ++ rest =
              '[' :: (c2 :: (r2 ++ (Json.dumpsElemsTail xs ++ ']' :: rest))) := by
            simp [Json.dumps, Json.dumpsElems, hdx, List.append_assoc]
          rw [harr]
          have hJ : parseJson fuel
              (c2 :: (r2 ++ (Json.dumpsElemsTail xs ++ ']' :: rest))) =
              some (x, Json.dumpsElemsTail xs ++ ']' :: rest) := by
            apply ihJ x _ _ hx1 hrest2
            rw [skipSp_cons_of_ne hsp, hdx, List.cons_append]
          have hA : parseArrTail fuel (Json.dumpsElemsTail xs ++ ']' :: rest) =
              some (xs, rest) := ihA xs rest hxs hrest
          simp [parseJsonTop, hrb, hJ, hA]
      | obj members =>
        cases members with
        | nil =>
          simp only [Json.dumps, Json.dumpsMembers, List.nil_append, List.cons_append,
            List.singleton_append]
          simp [parseJsonTop]
        | cons k v ms =>
          have hposv := Json.size_pos v
          simp only [Json.size, JsonObj.size] at hsz
          have hv : Json.size v + 1 ≤ fuel := by omega
          have hms : JsonObj.size ms + 1 ≤ fuel := by omega
          have hrest2 : restOk (Json.dumpsMembersTail ms ++ '}' :: rest) = true :=
            restOk_membersTail ms rest
          have hobj : Json.dumps (Json.obj (.cons k v ms)) ++ rest =
              '{' :: ('"' :: (escString k ++ '"' :: ':' :: ' ' :: (Json.dumps v ++
                (Json.dumpsMembersTail ms ++ '}' :: rest)))) := by
            simp [Json.dumps, Json.dumpsMembers, List.append_assoc]
          rw [hobj]
          have hM : parseMember fuel ('"' :: (escString k ++ '"' :: ':' :: ' ' ::
              (Json.dumps v ++ (Json.dumpsMembersTail ms ++ '}' :: rest)))) =
              some (k, v, Json.dumpsMembersTail ms ++ '}' :: rest) := by
            apply ihM k v _ _ hv hrest2
            rw [skipSp_cons_of_ne (by decide)]
            simp [Json.dumpsMember, List.append_assoc]
          have hO : parseObjTail fuel (Json.dumpsMembersTail ms ++ '}' :: rest) =
              some (ms, rest) := ihO ms rest hms hrest
          simp [parseJsonTop, hM, hO]
    · -- parseArrTail
      intro xs rest hsz hrest
      cases xs with
      | nil =>
        simp only [Json.dumpsElemsTail, List.nil_append]
        exact parseArrTail_close fuel rest
      | cons x xs =>
        have hposx := Json.size_pos x
        simp only [JsonArr.size] at hsz
        have hx1 : Json.size x ≤ fuel := by omega
        have hxs : JsonArr.size xs + 1 ≤ fuel := by omega
        have htail : Json.dumpsElemsTail (.cons x xs) ++ ']' :: rest =
            ',' :: ' ' :: (Json.dumps x ++ (Json.dumpsElemsTail xs ++ ']' :: rest)) := by
          simp [Json.dumpsElemsTail, List.append_assoc]
        rw [htail, parseArrTail_comma]
        have hJ : parseJson fuel
            (' ' :: (Json.dumps x ++ (Json.dumpsElemsTail xs ++ ']' :: rest))) =
            some (x, Json.dumpsElemsTail xs ++ ']' :: rest) := by
          apply ihJ x _ _ hx1 (restOk_elemsTail xs rest)
          simp [skipSp, skipSp_dumps_append]
        simp [hJ, ihA xs rest hxs hrest]
    · -- parseObjTail
      intro ms rest hsz hrest
      cases ms with
      | nil =>
        simp only [Json.dumpsMembersTail, List.nil_append]
        exact parseObjTail_close fuel rest
      | cons k v ms =>
        have hposv := Json.size_pos v
        simp only [JsonObj.size] at hsz
        have hv : Json.size v + 1 ≤ fuel := by omega
        have hms : JsonObj.size ms + 1 ≤ fuel := by omega
        have htail : Json.dumpsMembersTail (.cons k v ms) ++ '}' :: rest =
            ',' :: ' ' :: ('"' :: (escString k ++ '"' :: ':' :: ' ' :: (Json.dumps v ++
              (Json.dumpsMembersTail ms ++ '}' :: rest)))) := by
          simp [Json.dumpsMembersTail, List.append_assoc]
        rw [htail, parseObjTail_comma]
        have hM : parseMember fuel (' ' :: ('"' :: (escString k ++ '"' :: ':' :: ' ' ::
            (Json.dumps v ++ (Json.dumpsMembersTail ms ++ '}' :: rest))))) =
            some (k, v, Json.dumpsMembersTail ms ++ '}' :: rest) := by
          apply ihM k v _ _ hv (restOk_membersTail ms rest)
          rw [skipSp, if_pos rfl, skipSp_cons_of_ne (by decide)]
          simp [Json.dumpsMember, List.append_assoc]
        simp [hM, ihO ms rest hms hrest]
    · -- parseMember
      intro k v s rest hsz hrest hskip
      rw [parseMember_succ, hskip]
      have hm : Json.dumpsMember k v ++ rest =
          '"' :: (escString k ++ '"' :: (':' :: ' ' :: (Json.dumps v ++ rest))) := by
        simp [Json.dumpsMember, List.append_assoc]
      rw [hm]
      have hJ : parseJson fuel (' ' :: (Json.dumps v ++ rest)) = some (v, rest) := by
        apply ihJ v _ _ (by omega) hrest
        simp [skipSp, skipSp_dumps_append]
      simp [parseMemberTop, parseStr_esc, hJ]

/-- Round trip: `json.loads` inverts `json.dumps`. -/
theorem json_loads_dumps (j : Json) : json_loads (Json.dumps j) = some j := by
  have hfuel : Json.size j ≤ (Json.dumps j).length + 1 :=
    le_trans (Json.size_le_dumps j) (Nat.le_succ _)
  have hskip : skipSp (Json.dumps j) = Json.dumps j ++ [] := by
    conv_lhs => rw [show Json.dumps j = Json.dumps j ++ [] from (List.append_nil _).symm]
    exact skipSp_dumps_append j []
  have h := (parse_roundtrip ((Json.dumps j).length + 1)).1 j (Json.dumps j) [] hfuel rfl hskip
  rw [json_loads, h]
  rfl

/-! ## The controller embedding

Types for the values `controller.py` manipulates.  Python exceptions are
`Except.error` values; the external GraphQL engine is a parameter of the
controller structure. -/

inductive PyErr where
  /-- `RuntimeError('Content type not supported')` from `_get_query_document`. -/
  | contentTypeNotSupported
  /-- `json.JSONDecodeError` from `json.loads`. -/
  | jsonDecodeError
  /-- `KeyError`: `body['query']` or `parsed_qs[b'graphql']` with the key absent. -/
  | keyError
  /-- `TypeError`: an operation applied to a value of the wrong type. -/
  | typeError
  /-- `IndexError`: `value[0]` on an empty list. -/
  | indexError
  /-- An exception raised by the external GraphQL engine. -/
  | graphqlError
  deriving DecidableEq

structure GQLError where
  formatted : Json
  deriving DecidableEq

/-- The engine's `graphql.ExecutionResult`: `data` plus a (possibly empty) error list. -/
structure ExecResult where
  data : Json
  errors : List GQLError
  deriving DecidableEq

inductive OperationType where
  | query
  | mutation
  | subscription
  deriving DecidableEq

/-- A definition in a parsed GraphQL document: an
`graphql.OperationDefinitionNode` with its operation type, or any other
definition kind (fragment definitions etc.). -/
inductive DefinitionNode where
  | operationDef (operation : OperationType)
  | otherDef
  deriving DecidableEq

structure DocumentNode where
  definitions : List DefinitionNode
  deriving DecidableEq

/-- Predicate `_is_subscription`: an `OperationDefinitionNode` whose operation is
`OperationType.SUBSCRIPTION`. -/
def _is_subscription (definition : DefinitionNode) : Bool :=
  match definition with
  | .operationDef .subscription => true
  | _ => false

/-- Predicate `_has_subscription`: `any(_is_subscription(d) for d in document.definitions)`. -/
def _has_subscription (document : DocumentNode) : Bool :=
  document.definitions.any _is_subscription

/-- Result of `graphql.subscribe`: an async iterator of execution results
(embedded as its timed emission schedule: position = tick, `some v` = a result
whose JSON-serializable form is `v` becomes available at that tick), or — for
a validation failure — a plain `ExecutionResult`, which `graphql.subscribe`
returns instead of raising. -/
inductive SubscribeResult where
  | stream (sched : List (Option Json))
  | errorResult (res : ExecResult)

/-- The embedded `GraphQLController`.  `parse`, `execute` and `subscribe` are
the external engine entry points `graphql.parse`, `graphql.graphql` and
`graphql.subscribe` (any exception they raise is an `Except.error`);
`path_pre` is the constructor argument `path_prefix` and `pingInterval` the
constructor argument `ping_interval`. -/
structure GraphQLController where
  parse : List Char → Except PyErr DocumentNode
  execute : List Char → Option Json → Option Json → Except PyErr ExecResult
  subscribe : DocumentNode → Option Json → Option Json → Except PyErr SubscribeResult
  path_pre : List Char
  pingInterval : Nat

/-- The parts of the request the controller reads: `scheme` is
`scope['scheme']`, `host` is `_get_host(scope)` (the `host` / `:authority`
header), `contentType` and `ctParams` are `bareutils.header.content_type`,
`content` the fully-read body text, `queryString` is `scope['query_string']`. -/
structure Request where
  scheme : List Char
  host : List Char
  contentType : Option (List Char)
  ctParams : List (List Char × List Char)
  content : List Char
  queryString : List Char

/-- An HTTP response body as the handlers produce it. -/
inductive Body where
  /-- No body: a `(status, headers)` two-tuple response. -/
  | empty
  /-- `text_writer(text)`. -/
  | text (s : List Char)
  /-- A streaming generator and the chunks it yields. -/
  | stream (chunks : List (List Char))
  /-- A generator that raises as soon as it is consumed (`async for` over a
  value that is not an async iterator). -/
  | failedStream
  deriving DecidableEq

structure HttpResponse where
  status : Nat
  headers : List (List Char × List Char)
  body : Body
  deriving DecidableEq

/-- External `cgi.parse_multipart`: body text and content-type parameters to a
mapping from field name to listed values; may raise. -/
def MultipartDecoder : Type :=
  List Char → List (List Char × List Char) →
    Except PyErr (List (List Char × List (List Char)))

/-- First-occurrence lookup in a JSON object's member list (Python `dict`
construction keeps the first of duplicate keys from `parse_qs`; lookup is by
key). -/
def jsonObjFind : JsonObj → List Char → Option Json
  | .nil, _ => none
  | .cons k v rest, key => if k = key then some v else jsonObjFind rest key

/-- Python `body.get(key)` on a decoded JSON value: `none` when the value is
not an object or the key is missing. -/
def jsonGet : Json → List Char → Option Json
  | .obj ms, key => jsonObjFind ms key
  | _, _ => none

/-- Keep the first occurrence of each key (how `dict(parse_qs(..))` behaves:
`parse_qs` groups repeated names and `value[0]` takes the first value). -/
def dedupAux : Nat → List (List Char × List Char) → List (List Char × List Char)
  | 0, _ => []
  | _ + 1, [] => []
  | fuel + 1, p :: ps =>
    p :: dedupAux fuel (ps.filter (fun q => decide (q.1 ≠ p.1)))

def dedupKeys (ps : List (List Char × List Char)) : List (List Char × List Char) :=
  dedupAux ps.length ps

/-- Builds `{name: value[0] for ...}` over multipart fields: `value[0]` raises
`IndexError` on an empty value list. -/
def firstVals : List (List Char × List (List Char)) →
    Except PyErr (List (List Char × Json))
  | [] => .ok []
  | (name, vals) :: rest =>
    match vals with
    | [] => .error .indexError
    | v :: _ =>
      match firstVals rest with
      | .ok pairs => .ok ((name, Json.str v) :: pairs)
      | .error e => .error e

/-- Decoder `GraphQLController._get_query_document`: decode the request body according
to the content type (lines 118-142 of `controller.py`). -/
def _get_query_document (mp : MultipartDecoder) (contentType : Option (List Char))
    (ctParams : List (List Char × List Char)) (content : List Char) :
    Except PyErr Json :=
  if contentType = some ("application/graphql".toList) then
    .ok (Json.obj (.cons ("query".toList) (Json.str content) .nil))
  else if contentType = some ("application/json".toList) ∨
      contentType = some ("text/plain".toList) then
    match json_loads content with
    | some j => .ok j
    | none => .error .jsonDecodeError
  else if contentType = some ("application/x-www-form-urlencoded".toList) then
    .ok (Json.obj (JsonObj.ofList ((dedupKeys (parse_qs content)).map
      (fun p => (p.1, Json.str p.2)))))
  else if contentType = some ("multipart/form-data".toList) then
    match mp content ctParams with
    | .ok parts =>
      match firstVals parts with
      | .ok pairs => .ok (Json.obj (JsonObj.ofList pairs))
      | .error e => .error e
    | .error e => .error e
  else .error .contentTypeNotSupported

/-- Reads `body['query']` then `graphql.parse(query_text)` readiness: a missing key
raises `KeyError`; a non-string value makes `graphql.parse` raise. -/
def getQueryText (body : Json) : Except PyErr (List Char) :=
  match jsonGet body ("query".toList) with
  | some (Json.str s) => .ok s
  | some _ => .error .typeError
  | none => .error .keyError

/-- The single JSON response object: `{'data': ...}` plus `'errors'` exactly
when `result.errors` is truthy (lines 187-189). -/
def graphqlResponseJson (result : ExecResult) : Json :=
  Json.obj (.cons ("data".toList) result.data
    (if result.errors.isEmpty then .nil
     else .cons ("errors".toList)
       (Json.arr (JsonArr.ofList (result.errors.map GQLError.formatted))) .nil))

/-- The `Location` header value built for a subscription:
`f'{scheme}://{host}{path}?graphql={quote_plus(json.dumps(body))}'`. -/
def sseLocation (ctrl : GraphQLController) (req : Request) (body : Json) : List Char :=
  req.scheme ++ ("://".toList) ++ req.host ++ ctrl.path_pre ++
    ("/sse-subscription".toList) ++ ("?graphql=".toList) ++
    quote_plus (Json.dumps body)

/-- The generic failure response of the bare `except:` handler
(lines 200-206). -/
def internal_server_error : HttpResponse :=
  { status := 500
    headers := [(("content-type".toList), ("text/plain".toList)),
                (("content-length".toList),
                  natDump (("Internal server error".toList)).length)]
    body := .text ("Internal server error".toList) }

/-- The body of `handle_graphql`'s `try:` block (lines 154-197). -/
def handle_graphql_try (ctrl : GraphQLController) (mp : MultipartDecoder)
    (req : Request) : Except PyErr HttpResponse := do
  let body ← _get_query_document mp req.contentType req.ctParams req.content
  let query_text ← getQueryText body
  let variable_values := jsonGet body ("variables".toList)
  let operation_name := jsonGet body ("operationName".toList)
  let query_document ← ctrl.parse query_text
  if _has_subscription query_document then
    .ok { status := 201
          headers := [(("access-control-expose-headers".toList), ("location".toList)),
                      (("location".toList), sseLocation ctrl req body)]
          body := .empty }
  else
    let result ← ctrl.execute query_text variable_values operation_name
    let text := Json.dumps (graphqlResponseJson result)
    .ok { status := 200
          headers := [(("content-type".toList), ("application/json".toList)),
                      (("content-length".toList), natDump text.length)]
          body := .text text }

/-- Handler `handle_graphql`: the bare `except:` catches any exception raised inside
the `try:` block and degrades it to the generic failure response. -/
def handle_graphql (ctrl : GraphQLController) (mp : MultipartDecoder)
    (req : Request) : HttpResponse :=
  match handle_graphql_try ctrl mp req with
  | .ok resp => resp
  | .error _ => internal_server_error

/-! ## The SSE handler and the heartbeat merge -/

/-- Whether the cancellation signal is observed set at tick `t`. -/
def cancelledAt : Option Nat → Nat → Bool
  | none, _ => false
  | some c, t => decide (c ≤ t)

/-- Worker for `cancellable_aiter`: walks the source's timed schedule carrying
the current tick `t` and the number of ticks `w` since the last emission. -/
def merge_aux {α : Type} : List (Option α) → Option Nat → Nat → Nat → Nat →
    List (Option α)
  | [], _, _, _, _ => []
  | o :: rest, cancelAt, timeout, t, w =>
    if cancelledAt cancelAt t then []
    else
      match o with
      | some x => some x :: merge_aux rest cancelAt timeout (t + 1) 0
      | none =>
        if timeout ≤ w + 1 then none :: merge_aux rest cancelAt timeout (t + 1) 0
        else merge_aux rest cancelAt timeout (t + 1) (w + 1)

/-- Modelled from the spec: `cancellable_aiter` (the HeartbeatMerge primitive,
spec §4.3) lives in `bareasgi_graphql_next/utils.py`, which is not among the
provided source files; this definition follows the spec's words.  Time is
discrete: `sched` is the source's emission schedule (`sched[t] = some x` when
the source yields `x` at tick `t`, exhaustion of the list is source
completion), `cancelAt` the tick at which the cancellation signal is observed
set, `timeout` the heartbeat interval in ticks.  Each emission is either
`some item` or a `none` heartbeat; a heartbeat is emitted when no item arrived
within `timeout` ticks since the last emission (the window resets after every
emission); the merge terminates when the signal is set or the source
completes. -/
def cancellable_aiter {α : Type} (sched : List (Option α)) (cancelAt : Option Nat)
    (timeout : Nat) : List (Option α) :=
  merge_aux sched cancelAt timeout 0 0

/-- An SSE heartbeat frame (line 246); `ts` stands for `datetime.utcnow()`. -/
def pingFrame (ts : List Char) : List Char :=
  ("event: ping\ndata: ".toList) ++ ts ++ ("\n\n".toList)

/-- An SSE data frame (line 248): the JSON-serialized subscription result. -/
def messageFrame (val : Json) : List Char :=
  ("event: message\ndata: ".toList) ++ Json.dumps val ++ ("\n\n".toList)

/-- The empty-comment chunk yielded after every frame (line 252). -/
def nudgeChunk : List Char := (":\n\n".toList)

def send_events_aux (tstamp : Nat → List Char) : Nat → List (Option Json) →
    List (List Char)
  | _, [] => []
  | i, v :: rest =>
    (match v with
     | none => pingFrame (tstamp i)
     | some val => messageFrame val) :: nudgeChunk ::
      send_events_aux tstamp (i + 1) rest

/-- The `send_events` generator of `handle_sse` (lines 236-256): for every
value of the merged sequence, one frame (ping for a heartbeat, message for
data) followed by the nudge chunk.  `tstamp i` stands for the
`datetime.utcnow()` rendering at the `i`-th emission. -/
def send_events (tstamp : Nat → List Char) (vals : List (Option Json)) :
    List (List Char) :=
  send_events_aux tstamp 0 vals

/-- Lines 217-218 of `handle_sse`: `parse_qs(scope['query_string'])`, then
`parsed_qs[b'graphql'][0]` (`KeyError` when the name is absent), then
`unquote_plus`, then `json.loads` (`ValueError` on malformed JSON). -/
def sse_decode_operation (queryString : List Char) : Except PyErr Json :=
  match firstValue ("graphql".toList) (parse_qs queryString) with
  | none => .error .keyError
  | some v =>
    match json_loads (unquote_plus v) with
    | some j => .ok j
    | none => .error .jsonDecodeError

def sseHeaders : List (List Char × List Char) :=
  [(("cache-control".toList), ("no-cache".toList)),
   (("content-type".toList), ("text/event-stream".toList)),
   (("connection".toList), ("keep-alive".toList))]

/-- Handler `handle_sse` (lines 208-264).  The handler has no exception handling: any
failure is an `Except.error` propagated to the caller (the ASGI server).
`tstamp` and `cancelAt` describe the runtime environment of the returned
generator: the timestamps `datetime.utcnow()` will produce and the tick at
which `self.cancellation_event` is observed set.  When `graphql.subscribe`
returns a bare `ExecutionResult` (validation failure) the code still hands it
to `cancellable_aiter`/`async for`, which raises as soon as the response body
is consumed: `Body.failedStream`. -/
def handle_sse (ctrl : GraphQLController) (tstamp : Nat → List Char)
    (cancelAt : Option Nat) (req : Request) : Except PyErr HttpResponse := do
  let body ← sse_decode_operation req.queryString
  let query_text ← getQueryText body
  let variable_values := jsonGet body ("variables".toList)
  let operation_name := jsonGet body ("operationName".toList)
  let query_document ← ctrl.parse query_text
  let result ← ctrl.subscribe query_document variable_values operation_name
  let bodyOut :=
    match result with
    | .stream sched =>
      Body.stream (send_events tstamp
        (cancellable_aiter sched cancelAt ctrl.pingInterval))
    | .errorResult _ => Body.failedStream
  .ok { status := 200, headers := sseHeaders, body := bodyOut }

/-! ## Claim theorems -/

/-- C6: the subscription detector returns `true` iff at least one operation
definition in the parsed document is a subscription operation; in particular a
document mixing queries or mutations with one subscription definition is
routed as a subscription. -/
theorem C6_has_subscription_iff (doc : DocumentNode) :
    _has_subscription doc = true ↔
      ∃ d ∈ doc.definitions,
        d = DefinitionNode.operationDef OperationType.subscription := by
  rw [_has_subscription, List.any_eq_true]
  constructor
  · rintro ⟨d, hd, hsub⟩
    refine ⟨d, hd, ?_⟩
    cases d with
    | operationDef op => cases op <;> simp_all [_is_subscription]
    | otherDef => simp [_is_subscription] at hsub
  · rintro ⟨d, hd, rfl⟩
    exact ⟨_, hd, rfl⟩

/-- C3: a request whose content type is none of the five recognized kinds
(raw GraphQL, JSON, plain text, url-encoded form, multipart form) is rejected
by `_get_query_document` with the content-decoding error (the
`RuntimeError('Content type not supported')` realizing the spec's
`ContentDecodingError`) — a typed failure, never an unhandled one. -/
theorem C3_unsupported_content_type (mp : MultipartDecoder)
    (contentType : Option (List Char)) (ctParams : List (List Char × List Char))
    (content : List Char)
    (h1 : contentType ≠ some ("application/graphql".toList))
    (h2 : contentType ≠ some ("application/json".toList))
    (h3 : contentType ≠ some ("text/plain".toList))
    (h4 : contentType ≠ some ("application/x-www-form-urlencoded".toList))
    (h5 : contentType ≠ some ("multipart/form-data".toList)) :
    _get_query_document mp contentType ctParams content =
      .error PyErr.contentTypeNotSupported := by
  rw [_get_query_document, if_neg h1, if_neg (not_or.mpr ⟨h2, h3⟩), if_neg h4,
    if_neg h5]

theorem C3_witness :
    _get_query_document (fun _ _ => .error PyErr.graphqlError)
      (some ("application/xml".toList)) [] ("x".toList) =
      .error PyErr.contentTypeNotSupported :=
  C3_unsupported_content_type _ _ _ _ (by decide) (by decide) (by decide)
    (by decide) (by decide)

/-- C2 counterexample: with the cancellation signal set between the first and
the second source emission, the merge terminates early and the second source
item never appears in the merged sequence: the heartbeat-free merge does not
equal the source sequence for every cancellation schedule. -/
theorem C2_counterexample :
    (cancellable_aiter [some 1, some 2] (some 1) 5).filterMap id ≠
      ([some 1, some 2] : List (Option Nat)).filterMap id := by
  decide

theorem merge_aux_filterMap {α : Type} :
    ∀ (sched : List (Option α)) (cancelAt : Option Nat) (timeout t w : Nat),
    (∀ c, cancelAt = some c → sched.length + t ≤ c) →
    (merge_aux sched cancelAt timeout t w).filterMap id = sched.filterMap id := by
  intro sched
  induction sched with
  | nil => intro cancelAt timeout t w _; rfl
  | cons o rest ih =>
    intro cancelAt timeout t w h
    have hnc : cancelledAt cancelAt t = false := by
      cases cancelAt with
      | none => rfl
      | some c =>
        have := h c rfl
        simp [cancelledAt]
        simp at this
        omega
    have hrec : ∀ c, cancelAt = some c → rest.length + (t + 1) ≤ c := by
      intro c hc
      have := h c hc
      simp at this
      omega
    rw [merge_aux.eq_def]
    dsimp only
    rw [hnc]
    simp only [Bool.false_eq_true, if_false]
    cases o with
    | some x => simp [ih cancelAt timeout (t + 1) 0 hrec]
    | none =>
      by_cases hb : timeout ≤ w + 1
      · simp [hb, ih cancelAt timeout (t + 1) 0 hrec]
      · simp [hb, ih cancelAt timeout (t + 1) (w + 1) hrec]

/-- C2 amended (spec-modelled): for every source schedule and heartbeat
interval, provided the cancellation signal does not fire before the source
schedule is exhausted, the merged sequence with heartbeats removed equals the
source sequence exactly — every item exactly once, in order.  (Under an
earlier cancellation the merge terminates and the remaining source items are
dropped, as the spec's own termination requirement demands.) -/
theorem C2_amended {α : Type} (sched : List (Option α)) (cancelAt : Option Nat)
    (timeout : Nat) (h : ∀ c, cancelAt = some c → sched.length ≤ c) :
    (cancellable_aiter sched cancelAt timeout).filterMap id =
      sched.filterMap id := by
  rw [cancellable_aiter]
  exact merge_aux_filterMap sched cancelAt timeout 0 0 (by simpa using h)

theorem C2_witness :
    (cancellable_aiter [some 3, none, some 4] (some 3) 2).filterMap id =
      ([some 3, none, some 4] : List (Option Nat)).filterMap id :=
  C2_amended _ _ _ (by intro c hc; cases hc; decide)

theorem send_events_aux_len (tstamp : Nat → List Char) :
    ∀ (vals : List (Option Json)) (start : Nat),
    (send_events_aux tstamp start vals).length = 2 * vals.length := by
  intro vals
  induction vals with
  | nil => intro start; rfl
  | cons v rest ih =>
    intro start
    simp [send_events_aux, ih (start + 1)]
    omega

theorem send_events_aux_get (tstamp : Nat → List Char) :
    ∀ (vals : List (Option Json)) (start i : Nat) (v : Option Json),
    vals[i]? = some v →
      (send_events_aux tstamp start vals)[2 * i]? =
        some (match v with
              | none => pingFrame (tstamp (start + i))
              | some val => messageFrame val) ∧
      (send_events_aux tstamp start vals)[2 * i + 1]? = some nudgeChunk := by
  intro vals
  induction vals with
  | nil =>
    intro start i v h
    simp at h
  | cons v0 rest ih =>
    intro start i v h
    cases i with
    | zero =>
      rw [List.getElem?_cons_zero, Option.some.injEq] at h
      subst h
      constructor
      · rfl
      · simp [send_events_aux]
    | succ i =>
      rw [List.getElem?_cons_succ] at h
      obtain ⟨h1, h2⟩ := ih (start + 1) i v h
      have hL : send_events_aux tstamp start (v0 :: rest) =
          (match v0 with
           | none => pingFrame (tstamp start)
           | some val => messageFrame val) :: nudgeChunk ::
            send_events_aux tstamp (start + 1) rest := rfl
      constructor
      · rw [hL, show 2 * (i + 1) = 2 * i + 1 + 1 by ring,
          List.getElem?_cons_succ, List.getElem?_cons_succ, h1,
          show start + 1 + i = start + (i + 1) by omega]
      · rw [hL, show 2 * (i + 1) + 1 = 2 * i + 1 + 1 + 1 by ring,
          List.getElem?_cons_succ, List.getElem?_cons_succ, h2]

/-- C9: for every value produced by the merged subscription stream, the SSE
body emits exactly one frame — `event: ping\ndata: <timestamp>\n\n` for a
`none` heartbeat and `event: message\ndata: <serialized result>\n\n` for a
data item — each followed by the blank comment chunk `:\n\n`, and no other
chunks (exactly two chunks per merged value). -/
theorem C9_sse_frames (tstamp : Nat → List Char) (vals : List (Option Json)) :
    (send_events tstamp vals).length = 2 * vals.length ∧
    ∀ i v, vals[i]? = some v →
      (send_events tstamp vals)[2 * i]? =
        some (match v with
              | none => pingFrame (tstamp i)
              | some val => messageFrame val) ∧
      (send_events tstamp vals)[2 * i + 1]? = some nudgeChunk := by
  refine ⟨send_events_aux_len tstamp vals 0, ?_⟩
  intro i v h
  simpa using send_events_aux_get tstamp vals 0 i v h

theorem C9_witness :
    (send_events (fun _ => ("T".toList)) [none, some Json.null])[0]? =
      some (pingFrame ("T".toList)) ∧
    (send_events (fun _ => ("T".toList)) [none, some Json.null])[1]? =
      some nudgeChunk ∧
    (send_events (fun _ => ("T".toList)) [none, some Json.null])[2]? =
      some (messageFrame Json.null) ∧
    (send_events (fun _ => ("T".toList)) [none, some Json.null])[3]? =
      some nudgeChunk := by
  have h0 := (C9_sse_frames (fun _ => ("T".toList)) [none, some Json.null]).2 0 none rfl
  have h1 := (C9_sse_frames (fun _ => ("T".toList)) [none, some Json.null]).2 1
    (some Json.null) rfl
  exact ⟨h0.1, h0.2, h1.1, h1.2⟩

/-- A multipart decoder standing for external `cgi.parse_multipart` in
concrete evaluations. -/
def mpStub : MultipartDecoder := fun _ _ => .error PyErr.graphqlError

/-- A minimal request without a recognized content type. -/
def reqPlain : Request :=
  { scheme := "http".toList, host := "h".toList, contentType := none
    ctParams := [], content := [], queryString := [] }

/-- An engine that parses everything to a single plain query operation and
executes successfully. -/
def ctrlStub : GraphQLController :=
  { parse := fun _ => .ok ⟨[DefinitionNode.operationDef OperationType.query]⟩
    execute := fun _ _ _ => .ok { data := Json.null, errors := [] }
    subscribe := fun _ _ _ => .ok (.stream [])
    path_pre := []
    pingInterval := 10 }

/-- C8: any exception raised during decoding or execution inside
`handle_graphql`'s protected block is caught by the bare `except:` and
degraded to the fixed plain-text generic failure response (`500`, body
`Internal server error`, no internal detail); `handle_graphql` is a total
function of the request, never propagating the exception. -/
theorem C8_exceptions_degraded (ctrl : GraphQLController) (mp : MultipartDecoder)
    (req : Request) (e : PyErr)
    (h : handle_graphql_try ctrl mp req = .error e) :
    handle_graphql ctrl mp req = internal_server_error ∧
    internal_server_error.status = 500 ∧
    internal_server_error.headers =
      [(("content-type".toList), ("text/plain".toList)),
       (("content-length".toList), ("21".toList))] ∧
    internal_server_error.body = Body.text ("Internal server error".toList) := by
  refine ⟨?_, rfl, by decide, rfl⟩
  rw [handle_graphql, h]

theorem C8_witness :
    handle_graphql ctrlStub mpStub reqPlain = internal_server_error ∧
    internal_server_error.status = 500 ∧
    internal_server_error.headers =
      [(("content-type".toList), ("text/plain".toList)),
       (("content-length".toList), ("21".toList))] ∧
    internal_server_error.body = Body.text ("Internal server error".toList) :=
  C8_exceptions_degraded ctrlStub mpStub reqPlain PyErr.contentTypeNotSupported rfl

theorem ok_bind {e a b : Type} (x : a) (f : a → Except e b) :
    (Except.ok x >>= f) = f x := rfl

theorem error_bind {e a b : Type} (err : e) (f : a → Except e b) :
    ((Except.error err : Except e a) >>= f) = Except.error err := rfl

/-- C7: a successfully decoded non-subscription request is answered with
status 200 and a single JSON object that contains the `data` field, and
contains an `errors` field — the formatted error list — exactly when
execution produced a non-empty error list. -/
theorem C7_direct_execution (ctrl : GraphQLController) (mp : MultipartDecoder)
    (req : Request) (body : Json) (q : List Char) (doc : DocumentNode)
    (res : ExecResult)
    (hdec : _get_query_document mp req.contentType req.ctParams req.content = .ok body)
    (hq : getQueryText body = .ok q)
    (hparse : ctrl.parse q = .ok doc)
    (hsub : _has_subscription doc = false)
    (hexec : ctrl.execute q (jsonGet body ("variables".toList))
      (jsonGet body ("operationName".toList)) = .ok res) :
    ∃ j : Json,
      handle_graphql ctrl mp req =
        { status := 200
          headers := [(("content-type".toList), ("application/json".toList)),
                      (("content-length".toList), natDump (Json.dumps j).length)]
          body := .text (Json.dumps j) } ∧
      jsonGet j ("data".toList) = some res.data ∧
      ((jsonGet j ("errors".toList)).isSome ↔ res.errors ≠ []) ∧
      (res.errors ≠ [] → jsonGet j ("errors".toList) =
        some (Json.arr (JsonArr.ofList (res.errors.map GQLError.formatted)))) := by
  refine ⟨graphqlResponseJson res, ?_, ?_, ?_, ?_⟩
  · rw [handle_graphql, handle_graphql_try]
    simp only [hdec, ok_bind, hq, hparse, hsub, hexec, Bool.false_eq_true,
      if_false]
  · simp [graphqlResponseJson, jsonGet, jsonObjFind]
  · by_cases he : res.errors = [] <;>
      simp [graphqlResponseJson, jsonGet, jsonObjFind, he]
  · intro he
    simp [graphqlResponseJson, jsonGet, jsonObjFind, he]

theorem C7_witness :
    ∃ j : Json,
      handle_graphql ctrlStub mpStub
        { scheme := "http".toList, host := "h".toList
          contentType := some ("application/graphql".toList), ctParams := []
          content := "{ time }".toList, queryString := [] } =
        { status := 200
          headers := [(("content-type".toList), ("application/json".toList)),
                      (("content-length".toList), natDump (Json.dumps j).length)]
          body := .text (Json.dumps j) } ∧
      jsonGet j ("data".toList) = some Json.null ∧
      ((jsonGet j ("errors".toList)).isSome ↔ ([] : List GQLError) ≠ []) ∧
      (([] : List GQLError) ≠ [] → jsonGet j ("errors".toList) =
        some (Json.arr (JsonArr.ofList (([] : List GQLError).map GQLError.formatted)))) :=
  C7_direct_execution ctrlStub mpStub _ _ _ _ { data := Json.null, errors := [] }
    rfl rfl rfl rfl rfl

/-- An engine whose `parse` raises (a GraphQL syntax error) on every input. -/
def ctrlParseFail : GraphQLController :=
  { parse := fun _ => .error PyErr.graphqlError
    execute := fun _ _ _ => .ok { data := Json.null, errors := [] }
    subscribe := fun _ _ _ => .ok (.stream [])
    path_pre := []
    pingInterval := 10 }

/-- A direct request whose raw-GraphQL body fails to parse. -/
def reqSyntaxError : Request :=
  { scheme := "http".toList, host := "h".toList
    contentType := some ("application/graphql".toList), ctParams := []
    content := "query \x7b".toList, queryString := [] }

/-- C4 counterexample: a direct (non-subscription) request whose query text
has a syntax error receives the generic plain-text 500 failure response, not
a JSON response carrying the error in an `ExecutionResult` errors field —
because `graphql.parse` runs before subscription detection inside the
protected block, so the syntax error hits the bare `except:`. -/
theorem C4_counterexample :
    handle_graphql ctrlParseFail mpStub reqSyntaxError = internal_server_error ∧
    internal_server_error.status = 500 ∧
    internal_server_error.headers =
      [(("content-type".toList), ("text/plain".toList)),
       (("content-length".toList), ("21".toList))] ∧
    internal_server_error.body = Body.text ("Internal server error".toList) :=
  ⟨rfl, rfl, by decide, rfl⟩

/-- C4 amended: for direct requests, a *validation* failure — the engine
returning an `ExecutionResult` with a non-empty error list — is carried
inside the `errors` field of the single 200 JSON response (never a
transport-level failure), while a query text that fails to *parse* is
degraded to the generic plain-text failure response, because `graphql.parse`
runs before subscription detection inside the protected block. -/
theorem C4_amended (ctrl : GraphQLController) (mp : MultipartDecoder)
    (req : Request) (body : Json) (q : List Char)
    (hdec : _get_query_document mp req.contentType req.ctParams req.content = .ok body)
    (hq : getQueryText body = .ok q) :
    (∀ (doc : DocumentNode) (res : ExecResult),
      ctrl.parse q = .ok doc → _has_subscription doc = false →
      ctrl.execute q (jsonGet body ("variables".toList))
        (jsonGet body ("operationName".toList)) = .ok res →
      res.errors ≠ [] →
      handle_graphql ctrl mp req =
        { status := 200
          headers := [(("content-type".toList), ("application/json".toList)),
                      (("content-length".toList),
                        natDump (Json.dumps (graphqlResponseJson res)).length)]
          body := .text (Json.dumps (graphqlResponseJson res)) } ∧
      jsonGet (graphqlResponseJson res) ("errors".toList) =
        some (Json.arr (JsonArr.ofList (res.errors.map GQLError.formatted)))) ∧
    (∀ e : PyErr, ctrl.parse q = .error e →
      handle_graphql ctrl mp req = internal_server_error) := by
  constructor
  · intro doc res hparse hsub hexec herr
    constructor
    · rw [handle_graphql, handle_graphql_try]
      simp only [hdec, ok_bind, hq, hparse, hsub, hexec, Bool.false_eq_true,
        if_false]
    · simp [graphqlResponseJson, jsonGet, jsonObjFind, herr]
  · intro e hparse
    rw [handle_graphql, handle_graphql_try]
    simp only [hdec, ok_bind, hq, hparse, error_bind]

theorem C4_witness :
    (handle_graphql
        { parse := fun _ => .ok ⟨[DefinitionNode.operationDef OperationType.query]⟩
          execute := fun _ _ _ =>
            .ok { data := Json.null, errors := [{ formatted := Json.str ("boom".toList) }] }
          subscribe := fun _ _ _ => .ok (.stream [])
          path_pre := []
          pingInterval := 10 } mpStub reqSyntaxError =
      { status := 200
        headers := [(("content-type".toList), ("application/json".toList)),
                    (("content-length".toList),
                      natDump (Json.dumps (graphqlResponseJson
                        { data := Json.null,
                          errors := [{ formatted := Json.str ("boom".toList) }] })).length)]
        body := .text (Json.dumps (graphqlResponseJson
          { data := Json.null,
            errors := [{ formatted := Json.str ("boom".toList) }] })) } ∧
      jsonGet (graphqlResponseJson
          { data := Json.null, errors := [{ formatted := Json.str ("boom".toList) }] })
          ("errors".toList) =
        some (Json.arr (JsonArr.ofList
          (([{ formatted := Json.str ("boom".toList) }] : List GQLError).map
            GQLError.formatted)))) ∧
    handle_graphql ctrlParseFail mpStub reqSyntaxError = internal_server_error := by
  constructor
  · exact (C4_amended _ mpStub reqSyntaxError _ _ rfl rfl).1
      ⟨[DefinitionNode.operationDef OperationType.query]⟩ _ rfl rfl rfl (by decide)
  · exact (C4_amended _ mpStub reqSyntaxError _ _ rfl rfl).2 PyErr.graphqlError rfl

deriving instance DecidableEq for Except

theorem sse_decode_graphql_qs (body : Json)
    (hsafe : ∀ c ∈ Json.dumps body, c ≠ '+' ∧ c ≠ '%') :
    sse_decode_operation (("graphql=".toList) ++ quote_plus (Json.dumps body)) =
      .ok body := by
  have heq : (("graphql=".toList) ++ quote_plus (Json.dumps body)) =
      ("graphql".toList) ++ '=' :: quote_plus (Json.dumps body) := rfl
  rw [sse_decode_operation, heq,
    parse_qs_single _ _ (by decide) (fun c hc => (quote_plus_no_amp_eq _ c hc).1)]
  rw [show unquote_plus ("graphql".toList) = ("graphql".toList) from rfl,
    unquote_plus_quote_plus]
  simp [firstValue, unquote_plus_of_no_special hsafe, json_loads_dumps]

/-- C1 amended: an accepted operation body detected as a subscription is
answered with 201 and a Location header whose query string carries
`graphql=<url-quoted json.dumps(body)>`; *provided the serialized operation
contains neither `+` nor `%`* (so that it survives `handle_sse`'s double
unquoting: `parse_qs` already unquotes once before line 218 unquotes again),
the SSE endpoint's decode of that query string yields the original mapping
exactly. -/
theorem C1_amended (ctrl : GraphQLController) (mp : MultipartDecoder)
    (req : Request) (body : Json) (q : List Char) (doc : DocumentNode)
    (hdec : _get_query_document mp req.contentType req.ctParams req.content = .ok body)
    (hq : getQueryText body = .ok q)
    (hparse : ctrl.parse q = .ok doc)
    (hsub : _has_subscription doc = true)
    (hsafe : ∀ c ∈ Json.dumps body, c ≠ '+' ∧ c ≠ '%') :
    handle_graphql ctrl mp req =
      { status := 201
        headers := [(("access-control-expose-headers".toList), ("location".toList)),
                    (("location".toList), sseLocation ctrl req body)]
        body := .empty } ∧
    sseLocation ctrl req body =
      (req.scheme ++ ("://".toList) ++ req.host ++ ctrl.path_pre ++
        ("/sse-subscription".toList)) ++ '?' ::
        (("graphql=".toList) ++ quote_plus (Json.dumps body)) ∧
    sse_decode_operation (("graphql=".toList) ++ quote_plus (Json.dumps body)) =
      .ok body := by
  refine ⟨?_, ?_, sse_decode_graphql_qs body hsafe⟩
  · rw [handle_graphql, handle_graphql_try]
    simp only [hdec, ok_bind, hq, hparse, hsub, if_true]
  · rw [sseLocation]
    simp [List.append_assoc]

/-- An operation whose query text contains a `+`. -/
def bodyPlus : Json :=
  Json.obj (.cons ("query".toList)
    (Json.str ("subscription{f(a+b)}".toList)) .nil)

/-- An engine that reports every document as a subscription. -/
def ctrlSub : GraphQLController :=
  { parse := fun _ => .ok ⟨[DefinitionNode.operationDef OperationType.subscription]⟩
    execute := fun _ _ _ => .ok { data := Json.null, errors := [] }
    subscribe := fun _ _ _ => .ok (.stream [])
    path_pre := []
    pingInterval := 10 }

def reqPlus : Request :=
  { scheme := "http".toList, host := "h".toList
    contentType := some ("application/json".toList), ctParams := []
    content := Json.dumps bodyPlus, queryString := [] }

set_option maxHeartbeats 4000000 in
/-- C1 counterexample: the operation `bodyPlus` (query text
`subscription{f(a+b)}`) is accepted by the direct endpoint, detected as a
subscription and answered 201 with a Location whose query string is
`graphql=<url-quoted operation>` — but `handle_sse`'s decode of that query
string does not yield the original mapping: `parse_qs` unquotes once and
line 218 unquotes a second time, so the `+` in the query text becomes a
space. -/
theorem C1_counterexample :
    handle_graphql ctrlSub mpStub reqPlus =
      { status := 201
        headers := [(("access-control-expose-headers".toList), ("location".toList)),
                    (("location".toList), sseLocation ctrlSub reqPlus bodyPlus)]
        body := .empty } ∧
    sseLocation ctrlSub reqPlus bodyPlus =
      ("http://h/sse-subscription?".toList) ++
        (("graphql=".toList) ++ quote_plus (Json.dumps bodyPlus)) ∧
    sse_decode_operation (("graphql=".toList) ++ quote_plus (Json.dumps bodyPlus)) ≠
      .ok bodyPlus := by
  refine ⟨by decide, by decide, by decide⟩

/-- A subscription operation whose serialization contains no `+` or `%`. -/
def bodySub : Json :=
  Json.obj (.cons ("query".toList) (Json.str ("subscription{x}".toList)) .nil)

def reqSub : Request :=
  { scheme := "http".toList, host := "h".toList
    contentType := some ("application/json".toList), ctParams := []
    content := Json.dumps bodySub, queryString := [] }

set_option maxHeartbeats 4000000 in
theorem C1_witness :
    handle_graphql ctrlSub mpStub reqSub =
      { status := 201
        headers := [(("access-control-expose-headers".toList), ("location".toList)),
                    (("location".toList), sseLocation ctrlSub reqSub bodySub)]
        body := .empty } ∧
    sseLocation ctrlSub reqSub bodySub =
      (reqSub.scheme ++ ("://".toList) ++ reqSub.host ++ ctrlSub.path_pre ++
        ("/sse-subscription".toList)) ++ '?' ::
        (("graphql=".toList) ++ quote_plus (Json.dumps bodySub)) ∧
    sse_decode_operation (("graphql=".toList) ++ quote_plus (Json.dumps bodySub)) =
      .ok bodySub :=
  C1_amended ctrlSub mpStub reqSub bodySub ("subscription{x}".toList)
    ⟨[DefinitionNode.operationDef OperationType.subscription]⟩
    (by decide) (by decide) rfl rfl (by decide)

def reqSseParseFail : Request :=
  { scheme := [], host := [], contentType := none, ctParams := []
    content := []
    queryString := ("graphql=".toList) ++ quote_plus (Json.dumps bodySub) }

set_option maxHeartbeats 4000000 in
/-- C5 counterexample: when subscription setup fails at parse time,
`handle_sse` does not report the failure as a single formatted error object
in lieu of a stream — it produces no response at all: the parse exception
propagates to the caller. -/
theorem C5_counterexample :
    handle_sse ctrlParseFail (fun _ => []) none reqSseParseFail =
      Except.error PyErr.graphqlError := by
  decide

/-- C5 amended: when subscription setup fails (the parse raises), `handle_sse`
produces no response — status, headers and body are never built, so no bytes
are flushed — but no error report is emitted either: the exception propagates
unhandled to the caller. -/
theorem C5_amended (ctrl : GraphQLController) (tstamp : Nat → List Char)
    (cancelAt : Option Nat) (req : Request) (body : Json) (q : List Char)
    (e : PyErr)
    (hdec : sse_decode_operation req.queryString = .ok body)
    (hq : getQueryText body = .ok q)
    (hparse : ctrl.parse q = .error e) :
    handle_sse ctrl tstamp cancelAt req = .error e := by
  rw [handle_sse]
  simp only [hdec, ok_bind, hq, hparse, error_bind]

set_option maxHeartbeats 4000000 in
theorem C5_witness :
    handle_sse ctrlParseFail (fun _ => ("T".toList)) (some 3) reqSseParseFail =
      .error PyErr.graphqlError :=
  C5_amended ctrlParseFail _ _ reqSseParseFail bodySub ("subscription{x}".toList)
    PyErr.graphqlError (by decide) (by decide) rfl

/-- C10: `handle_sse` has no exception handling: a query string without a
`graphql` name raises `KeyError`, and a `graphql` value that is not
url-encoded JSON raises the JSON decode error; both propagate out of the
handler — unlike `handle_graphql`, nothing degrades them to a failure
response. -/
theorem C10_sse_decode_failures (ctrl : GraphQLController)
    (tstamp : Nat → List Char) (cancelAt : Option Nat) (req : Request) :
    (firstValue ("graphql".toList) (parse_qs req.queryString) = none →
      handle_sse ctrl tstamp cancelAt req = .error PyErr.keyError) ∧
    (∀ v, firstValue ("graphql".toList) (parse_qs req.queryString) = some v →
      json_loads (unquote_plus v) = none →
      handle_sse ctrl tstamp cancelAt req = .error PyErr.jsonDecodeError) := by
  constructor
  · intro h
    rw [handle_sse]
    simp only [sse_decode_operation, h, error_bind]
  · intro v hv hl
    rw [handle_sse]
    simp only [sse_decode_operation, hv, hl, error_bind]

theorem C10_witness :
    handle_sse ctrlStub (fun _ => []) none
      { scheme := [], host := [], contentType := none, ctParams := []
        content := [], queryString := ("other=1".toList) } =
      .error PyErr.keyError ∧
    handle_sse ctrlStub (fun _ => []) none
      { scheme := [], host := [], contentType := none, ctParams := []
        content := [], queryString := ("graphql=notjson".toList) } =
      .error PyErr.jsonDecodeError := by
  constructor
  · exact (C10_sse_decode_failures _ _ _ _).1 (by decide)
  · exact (C10_sse_decode_failures _ _ _ _).2 ("notjson".toList) (by decide)
      (by decide)
